import Mathlib

/-!
Verification of the declarative column-mapping / record-flattening engine of the
pipelines repository.  The source is translated into a shallow embedding:

* JSON/Python values become the inductive type `PyVal` (Python `float` is
  modelled by an exact rational; JSON numbers in these APIs are decimals).
* Python dictionaries become association lists (`Dct`) with first-match lookup;
  the JSON decoder never produces duplicate keys.
* Python exceptions become `Option`/`none` at the points where the source lets
  an exception escape; `try`/`except` blocks that swallow the exception are
  modelled by the handler's value.
* `datetime.now()` is modelled as an explicit `now : PyVal` parameter.

The embedded functions are, per module:
* `googleExtractValue`, `googleConvertValue`, `googleDefaultValue`
  (google-ads-pipeline-new-module/google_ads_pipeline.py),
* `metaProcessRecord`, `metaProcessNestedResponse`, `metaAssembleFields`
  (meta-ads-pipeline-new-module/meta_ads_pipeline.py),
* `xeroExtractRecordValues`, `xeroProcessCreditNotes`
  (xero-data-pipeline-new-module/xero_data_pipeline.py).
-/

set_option maxHeartbeats 1000000

/-- Shallow embedding of the Python/JSON values the pipelines manipulate.
`VFloat` models Python floats by exact rationals (the claims proved below do
not depend on IEEE rounding). -/
inductive PyVal where
  | VNone : PyVal
  | VBool : Bool → PyVal
  | VInt : Int → PyVal
  | VFloat : Rat → PyVal
  | VStr : String → PyVal
  | VList : List PyVal → PyVal
  | VDict : List (String × PyVal) → PyVal

open PyVal

/-- A Python dictionary with string keys, as produced by the JSON decoder. -/
abbrev Dct := List (String × PyVal)

/-- First-match association-list lookup: Python `d[k]` / `k in d` backing. -/
def dget : Dct → String → Option PyVal
  | [], _ => none
  | (k₂, v) :: t, k => if k₂ = k then some v else dget t k

/-- Python `d.get(k, dflt)`. -/
def dgetD (d : Dct) (k : String) (dflt : PyVal) : PyVal :=
  (dget d k).getD dflt

/-- Functional update of an existing key (Python `d[k] = v` on a copy,
used only where the source assigns to a key already present). -/
def dset (d : Dct) (k : String) (v : PyVal) : Dct :=
  d.map (fun kv => if kv.1 = k then (kv.1, v) else kv)

/-- Python `d[k] = v` where the key may be fresh: update or append. -/
def dsetNew (d : Dct) (k : String) (v : PyVal) : Dct :=
  if (dget d k).isSome then dset d k v else d ++ [(k, v)]

/-- Python truthiness (`bool(v)` / use of a value in a condition). -/
def pyTruthy : PyVal → Bool
  | VNone => false
  | VBool b => b
  | VInt n => !(n == 0)
  | VFloat q => !(q == 0)
  | VStr s => !(s == "")
  | VList xs => !xs.isEmpty
  | VDict d => !d.isEmpty

/-- Decimal digit character for a digit value below ten (junk above). -/
def digitChar : Nat → Char
  | 0 => '0' | 1 => '1' | 2 => '2' | 3 => '3' | 4 => '4'
  | 5 => '5' | 6 => '6' | 7 => '7' | 8 => '8' | _ => '9'

/-- Digit value of a decimal digit character (junk otherwise). -/
def charDigit : Char → Nat
  | '0' => 0 | '1' => 1 | '2' => 2 | '3' => 3 | '4' => 4
  | '5' => 5 | '6' => 6 | '7' => 7 | '8' => 8 | '9' => 9
  | _ => 0

/-- Whether a character is one of the decimal digit characters. -/
def isDigitCh (c : Char) : Bool :=
  c == '0' || c == '1' || c == '2' || c == '3' || c == '4' ||
  c == '5' || c == '6' || c == '7' || c == '8' || c == '9'

/-- Decimal digit characters of a natural number, most significant first
(Python `str(n)` for `n ≥ 0`). -/
def natChars (n : Nat) : List Char :=
  if n = 0 then ['0'] else ((Nat.digits 10 n).map digitChar).reverse

/-- Decimal character sequence of an integer (Python `str(n)`). -/
def intChars (n : Int) : List Char :=
  if n < 0 then '-' :: natChars n.natAbs else natChars n.natAbs

/-- Parse an all-digit character sequence as a natural number; `none` when the
sequence is empty or holds a non-digit (Python `int(...)` failure). -/
def parseNatChars (cs : List Char) : Option Nat :=
  if cs ≠ [] ∧ cs.all isDigitCh then
    some (Nat.ofDigits 10 (cs.map charDigit).reverse)
  else none

/-- Parse a decimal integer with optional leading minus sign.  Models Python
`int(s)` on canonical decimal strings; the extra forms `int` accepts
(whitespace, `+`, underscores) are outside the modelled fragment and no claim
depends on them. -/
def parseIntChars : List Char → Option Int
  | [] => none
  | c :: cs =>
    if c = '-' then (parseNatChars cs).map (fun m : Nat => -(m : Int))
    else (parseNatChars (c :: cs)).map (fun m : Nat => (m : Int))

/-- Python `int(s)` on a string. -/
def pyParseInt (s : String) : Option Int :=
  parseIntChars s.data

/-- Parse an unsigned decimal, optionally with a fractional part, as an exact
rational.  Models Python `float(s)` on plain decimal strings; scientific
notation, `inf` and `nan` are outside the modelled fragment. -/
def parseDecChars (cs : List Char) : Option Rat :=
  match cs.splitOn '.' with
  | [w] => (parseNatChars w).map (fun n => (n : Rat))
  | [w, f] =>
    match parseNatChars w, parseNatChars f with
    | some n, some m => some ((n : Rat) + (m : Rat) / ((10 : Rat) ^ f.length))
    | _, _ => none
  | _ => none

/-- Python `float(s)` on a string. -/
def pyParseFloat (s : String) : Option Rat :=
  match s.data with
  | '-' :: cs => (parseDecChars cs).map (fun q => -q)
  | cs => parseDecChars cs

/-- Exact decimal-style rendering of the rational modelling a Python float.
Python's shortest-round-trip float repr is floating-point behaviour outside
this model; no theorem below depends on this case. -/
def floatChars (q : Rat) : List Char :=
  if q.den = 1 then intChars q.num ++ ['.', '0']
  else intChars q.num ++ '/' :: natChars q.den

mutual

/-- Python `str(v)`.  String elements inside lists are rendered without
Python's quoting; no claim below stringifies a container. -/
def pyStr : PyVal → String
  | VNone => "None"
  | VBool true => "True"
  | VBool false => "False"
  | VInt n => String.mk (intChars n)
  | VFloat q => String.mk (floatChars q)
  | VStr s => s
  | VList xs => "[" ++ pyStrList xs ++ "]"
  | VDict d => "\x7b" ++ pyStrDict d ++ "\x7d"

/-- Comma-joined rendering of list elements. -/
def pyStrList : List PyVal → String
  | [] => ""
  | [x] => pyStr x
  | x :: xs => pyStr x ++ ", " ++ pyStrList xs

/-- Comma-joined rendering of dictionary entries. -/
def pyStrDict : List (String × PyVal) → String
  | [] => ""
  | [kv] => kv.1 ++ ": " ++ pyStr kv.2
  | kv :: t => kv.1 ++ ": " ++ pyStr kv.2 ++ ", " ++ pyStrDict t

end

/-- Python `int(v)` on an arbitrary value; `none` models the exception on
unconvertible input.  Rational truncation is toward zero, as in Python. -/
def pyToInt : PyVal → Option Int
  | VInt n => some n
  | VBool b => some (if b then 1 else 0)
  | VFloat q => some (if 0 ≤ q then ⌊q⌋ else ⌈q⌉)
  | VStr s => pyParseInt s
  | _ => none

/-- Python `float(v)` on an arbitrary value; `none` models the exception. -/
def pyToFloat : PyVal → Option Rat
  | VFloat q => some q
  | VInt n => some (n : Rat)
  | VBool b => some (if b then 1 else 0)
  | VStr s => pyParseFloat s
  | _ => none

/-- Whether a value is a list (Python `isinstance(v, list)`). -/
def isList : PyVal → Bool
  | VList _ => true
  | _ => false

/-- Python `v == s` for a string literal `s`: only equal strings compare
equal (no JSON value of another type equals a string under Python `==`). -/
def isStrEqB (v : PyVal) (s : String) : Bool :=
  match v with
  | VStr t => t = s
  | _ => false

/-- Python `o == s` where `o` is `d.get(k)` (possibly `None`). -/
def optIsStr (o : Option PyVal) (s : String) : Bool :=
  match o with
  | some v => isStrEqB v s
  | none => false

/-- Truthiness of an optional configuration string (Python reads the key with
`.get`, getting `None` when absent, and branches on truthiness). -/
def optTruthy (o : Option String) : Bool :=
  match o with
  | some s => !(s == "")
  | none => false

/-- Python `str.split(sep)` on a one-character separator, at the character
level: accumulate the current piece, cut at each separator. -/
def splitCharAux (c : Char) : List Char → List Char → List (List Char)
  | [], acc => [acc.reverse]
  | x :: xs, acc =>
    if x = c then acc.reverse :: splitCharAux c xs []
    else splitCharAux c xs (x :: acc)

/-- Python `s.split(c)` for a one-character separator `c`. -/
def pySplit (c : Char) (s : String) : List String :=
  (splitCharAux c s.data []).map String.mk

/-- Python `s.isdigit()` (ASCII digits; the configs use only those). -/
def pyIsDigit (s : String) : Bool :=
  !s.data.isEmpty && s.data.all isDigitCh

/-- Enumerate a Python iterable: lists yield elements, strings yield
one-character strings, dictionaries yield their keys; other values raise
`TypeError` (`none`). -/
def iterElems : PyVal → Option (List PyVal)
  | VList xs => some xs
  | VStr s => some (s.data.map (fun ch => VStr (String.mk [ch])))
  | VDict d => some (d.map (fun kv => VStr kv.1))
  | _ => none

/-- Whether the character list `sub` occurs contiguously in `l`
(Python `sub in s` on strings). -/
def hasSubChars (sub : List Char) : List Char → Bool
  | [] => sub.isEmpty
  | x :: xs => sub.isPrefixOf (x :: xs) || hasSubChars sub xs

/-- Python `x in v` for the membership tests the source performs on the
elements of an action array: key test on dicts, substring test on strings,
element test on lists; `TypeError` (`none`) on non-containers. -/
def pyContainsStr (needle : String) : PyVal → Option Bool
  | VDict d => some (dget d needle).isSome
  | VStr s => some (hasSubChars needle.data s.data)
  | VList xs => some (xs.any (fun x => isStrEqB x needle))
  | _ => none

/-- Python `x * y` on numbers; other operand combinations (string or list
repetition) are outside the modelled fragment (`none`); no claim multiplies
non-numbers. -/
def pyMul (x y : PyVal) : Option PyVal :=
  match x, y with
  | VInt a, VInt b => some (VInt (a * b))
  | VInt a, VFloat q => some (VFloat ((a : Rat) * q))
  | VFloat q, VInt a => some (VFloat (q * (a : Rat)))
  | VFloat p, VFloat q => some (VFloat (p * q))
  | _, _ => none

/-- Python `x - y` on numbers (`TypeError` otherwise). -/
def pySub (x y : PyVal) : Option PyVal :=
  match x, y with
  | VInt a, VInt b => some (VInt (a - b))
  | VInt a, VFloat q => some (VFloat ((a : Rat) - q))
  | VFloat q, VInt a => some (VFloat (q - (a : Rat)))
  | VFloat p, VFloat q => some (VFloat (p - q))
  | _, _ => none

/-! ## Google Ads pipeline (google-ads-pipeline-new-module/google_ads_pipeline.py) -/

/-- Capitalise the first character of a path segment
(one step of `_convert_snake_to_camel`'s loop body). -/
def capSeg (cs : List Char) : List Char :=
  match cs with
  | [] => []
  | c :: rest => c.toUpper :: rest

/-- `GoogleAdsPipeline._convert_snake_to_camel`: split on underscores, keep
the first segment, capitalise the rest, skipping empty segments. -/
def convertSnakeToCamel (s : String) : String :=
  if s.data.contains '_' then
    match pySplit '_' s with
    | [] => s
    | h :: t => h ++ String.join (t.map (fun seg => String.mk (capSeg seg.data)))
  else s

/-- The dotted-path walk inside `_extract_value_from_result`: descend through
dictionary keys; `none` when a segment is not found (the source then returns
the type default). -/
def googleNavigate : PyVal → List String → Option PyVal
  | v, [] => some v
  | v, seg :: rest =>
    match v with
    | VDict d =>
      match dget d seg with
      | some v₂ => googleNavigate v₂ rest
      | none => none
    | _ => none

/-- `GoogleAdsPipeline._get_default_value`: defaults per BigQuery type
(the dictionary lookup itself defaults to `None`). -/
def googleDefaultValue (t : String) : PyVal :=
  if t = "INTEGER" then VInt 0
  else if t = "FLOAT64" then VFloat 0
  else if t = "STRING" then VStr "N/A"
  else if t = "TIMESTAMP" then VNone
  else if t = "DATE" then VNone
  else if t = "BOOLEAN" then VBool false
  else VNone

/-- `GoogleAdsPipeline._convert_value_based_on_type`.  The `datetime`
instance check in the TIMESTAMP branch can never fire on JSON-decoded input,
so that branch passes the value through; `int`/`float` failures (the
`except`) yield the type default. -/
def googleConvertValue (v : PyVal) (t : String) : PyVal :=
  match v with
  | VNone => googleDefaultValue t
  | _ =>
    if t = "INTEGER" then
      match pyToInt v with
      | some n => VInt n
      | none => googleDefaultValue t
    else if t = "FLOAT64" then
      match pyToFloat v with
      | some q => VFloat q
      | none => googleDefaultValue t
    else if t = "STRING" then VStr (pyStr v)
    else if t = "TIMESTAMP" then v
    else if t = "BOOLEAN" then VBool (pyTruthy v)
    else v

/-- `GoogleAdsPipeline._extract_value_from_result`: empty/absent source field
gives `None`; otherwise normalise the dotted path segment-wise to camelCase
and walk it; a missing segment yields the type default; a configured
`transform` (an `eval`'d expression, modelled as an abstract function) is
applied instead of type conversion. -/
def googleExtractValue (result : PyVal) (sourceField : Option String)
    (colType : String) (tr : Option (PyVal → PyVal)) : PyVal :=
  match sourceField with
  | none => VNone
  | some sf =>
    if sf = "" then VNone
    else
      match googleNavigate result ((pySplit '.' sf).map convertSnakeToCamel) with
      | none => googleDefaultValue colType
      | some v =>
        match tr with
        | some f => f v
        | none => googleConvertValue v colType

/-- Whether a value is a legal inhabitant of a BigQuery destination type,
as the specification's coercion claim uses the phrase: integers for INTEGER,
rationals (floats) for FLOAT64, strings for STRING, booleans for BOOLEAN,
and for DATE/TIMESTAMP a date-bearing string or the `None` default. -/
def isLegalValue (v : PyVal) (t : String) : Bool :=
  if t = "INTEGER" then (match v with | VInt _ => true | _ => false)
  else if t = "FLOAT64" then (match v with | VFloat _ => true | _ => false)
  else if t = "STRING" then (match v with | VStr _ => true | _ => false)
  else if t = "BOOLEAN" then (match v with | VBool _ => true | _ => false)
  else if t = "DATE" ∨ t = "TIMESTAMP" then
    (match v with | VStr _ => true | VNone => true | _ => false)
  else true

/-! ## Meta Ads pipeline (meta-ads-pipeline-new-module/meta_ads_pipeline.py) -/

/-- Sequential per-element processing with failure propagation (the shape of
every `for`-loop in the source that appends one result per element and lets
an exception abort the whole batch). -/
def optMapM {α β : Type} (f : α → Option β) : List α → Option (List β)
  | [] => some []
  | x :: t =>
    match f x with
    | none => none
    | some y => (optMapM f t).map (fun ys => y :: ys)

/-- One entry of `COLUMN_DEFINITIONS` as `MetaAdsPipeline.process_record` and
`_generate_api_fields` read it (`array_index` is read by the source but never
used, so it is omitted). -/
structure MCol where
  name : String
  ctype : String
  source_field : Option String
  is_nested : Bool
  action_filter : Option String
  auto_generate : Bool
  is_value_from : Option String
  deep_nested : Bool
  path_to_value : Option String
  array_all : Bool
  join_delimiter : String
  is_breakdown : Bool

/-- A direct-field column with the given name, type and source field. -/
def mkDirectCol (nm ty sf : String) : MCol :=
  ⟨nm, ty, some sf, false, none, false, none, false, none, false, ",", false⟩

/-- The wildcard search of the deep-nested branch (lines 285-291): index of
the first `*` segment, if any. -/
def findStar : List String → Option Nat
  | [] => none
  | s :: t => if s = "*" then some 0 else (findStar t).map (fun k => k + 1)

/-- The navigation loop of the deep-nested branch of `process_record`
(lines 307-344): walk the (wildcard-replaced) path segments, tracking the
collecting flag and array position; `none` models the `NameError` raised when
`array_pos` is referenced although no wildcard defined it (caught by the
surrounding `except`, which yields `""`).  The result is the final
`current_value`, `collecting_array` and `array_position`. -/
def mnav (aAll : Bool) (aPos : Option Nat) :
    List String → Nat → PyVal → Bool → Nat → Option (PyVal × Bool × Nat)
  | [], _, cur, coll, ap => some (cur, coll, ap)
  | seg :: rest, i, cur, coll, ap =>
    if pyIsDigit seg then
      match (if aAll && !coll then
               match aPos with
               | none => none
               | some p => some (decide (i = p))
             else some false : Option Bool) with
      | none => none
      | some hit =>
        let coll₂ := coll || hit
        let ap₂ := if hit then i else ap
        if hit && isList cur then some (cur, coll₂, ap₂)
        else
          match cur with
          | VList xs =>
            let idx := (parseNatChars seg.data).getD 0
            if h : idx < xs.length then
              mnav aAll aPos rest (i + 1) (xs.get ⟨idx, h⟩) coll₂ ap₂
            else some (VStr "", coll₂, ap₂)
          | VDict d =>
            match dget d seg with
            | some v => mnav aAll aPos rest (i + 1) v coll₂ ap₂
            | none => some (VStr "", coll₂, ap₂)
          | _ => some (VStr "", coll₂, ap₂)
    else
      match cur with
      | VDict d =>
        match dget d seg with
        | some v =>
          if isList v && aAll then
            match aPos with
            | none => none
            | some p =>
              if i + 1 = p then some (v, true, i + 1)
              else mnav aAll aPos rest (i + 1) v coll ap
          else mnav aAll aPos rest (i + 1) v coll ap
        | none => some (VStr "", coll, ap)
      | _ => some (VStr "", coll, ap)

/-- Applying the remaining path segments to one array item
(lines 356-368 of `process_record`): dictionary keys, numeric indices into
lists, `""` as soon as a segment does not resolve. -/
def applyRemaining : PyVal → List String → PyVal
  | v, [] => v
  | v, seg :: rest =>
    match v with
    | VDict d =>
      match dget d seg with
      | some v₂ => applyRemaining v₂ rest
      | none => VStr ""
    | VList xs =>
      if pyIsDigit seg then
        let idx := (parseNatChars seg.data).getD 0
        if h : idx < xs.length then applyRemaining (xs.get ⟨idx, h⟩) rest
        else VStr ""
      else VStr ""
    | _ => VStr ""

/-- The string added to `array_values` for one resolved item: skipped when the
item resolved to `None`, otherwise the item itself if already a string, else
its `str(...)` image. -/
def itemString (v : PyVal) : Option String :=
  match v with
  | VNone => none
  | VStr s => some s
  | v => some (pyStr v)

/-- The deep-nested branch of `process_record` (lines 280-390): replace the
first `*` by `0` (forcing `array_all`), navigate, and either join the
collected per-item strings with the delimiter (or take the first) or return
the single value found; every escaping exception is caught and yields `""`. -/
def metaDeepExtract (record : Dct) (path : String) (aAllCfg : Bool)
    (delim : String) : PyVal :=
  let segs₀ := pySplit '.' path
  let (segs, aAll, aPos) :=
    match findStar segs₀ with
    | some k => (segs₀.set k "0", true, some k)
    | none => (segs₀, aAllCfg, none)
  match mnav aAll aPos segs 0 (VDict record) false 0 with
  | none => VStr ""
  | some (cur, coll, ap) =>
    match cur, coll with
    | VList xs, true =>
      let remaining := if ap < segs.length - 1 then segs.drop (ap + 1) else []
      let vals := xs.filterMap (fun it => itemString (applyRemaining it remaining))
      if vals.isEmpty then VStr ""
      else if aAll then VStr (String.intercalate delim vals)
      else VStr (vals.headD "")
    | VNone, _ => VStr ""
    | cur, _ => cur

/-- The scan over an action array in the `is_nested`/`action_filter` branch
(lines 396-409): first element whose `action_type` equals the filter yields
its `value` (default `""`); exhaustion yields `""`; a non-dict element
reached by the scan raises (`none`). -/
def scanActs (f : String) : List PyVal → Option PyVal
  | [] => some (VStr "")
  | a :: rest =>
    match a with
    | VDict d =>
      if optIsStr (dget d "action_type") f then some (dgetD d "value" (VStr ""))
      else scanActs f rest
    | _ => none

/-- The generator scan of the plain `is_nested` branch (line 419): first
element for which `"value" in a` holds; `none` propagates a `TypeError` from
the membership test. -/
def findWithValue : List PyVal → Option (Option PyVal)
  | [] => some none
  | a :: rest =>
    match pyContainsStr "value" a with
    | none => none
    | some true => some (some a)
    | some false => findWithValue rest

/-- Resolution of one column of `MetaAdsPipeline.process_record` for one
record.  Exactly one value is produced per column; `none` models an
exception escaping `process_record` (which has no handler around these
branches). -/
def metaProcessCol (now : PyVal) (record : Dct) (c : MCol) : Option PyVal :=
  if c.auto_generate then
    some (if c.name = "processed_at" then now else VStr "")
  else if c.deep_nested && optTruthy c.path_to_value then
    some (metaDeepExtract record (c.path_to_value.getD "") c.array_all c.join_delimiter)
  else if c.is_nested && optTruthy c.action_filter then
    let f := c.action_filter.getD ""
    if c.is_value_from = some "action_values" && (dget record "action_values").isSome then
      (iterElems (dgetD record "action_values" (VList []))).bind (scanActs f)
    else if (dget record "actions").isSome then
      (iterElems (dgetD record "actions" (VList []))).bind (scanActs f)
    else some (VStr "")
  else if c.is_nested then
    match c.source_field with
    | none => none
    | some sf =>
      if sf.data.contains '.' then
        match pySplit '.' sf with
        | [parent, child] =>
          if (dget record parent).isSome && pyTruthy (dgetD record parent VNone) then
            (iterElems (dgetD record parent VNone)).bind (fun elems =>
              (findWithValue elems).bind (fun found =>
                match found with
                | some a =>
                  if pyTruthy a then
                    match a with
                    | VDict d =>
                      if child = "action_type" then some (dgetD d "action_type" (VStr ""))
                      else some (dgetD d "value" (VStr ""))
                    | _ => none
                  else some (VStr "")
                | none => some (VStr "")))
          else some (VStr "")
        | _ => none
      else some (VStr "")
  else
    match c.source_field with
    | none => some VNone
    | some sf =>
      if sf = "campaign_id" && pyTruthy (dgetD record sf VNone) then
        match pyToInt (dgetD record sf VNone) with
        | some n => some (VInt n)
        | none => some (VStr "")
      else some (dgetD record sf (VStr ""))

/-- `MetaAdsPipeline.process_record`: one appended value per column
definition, in order; an exception in any column aborts the record. -/
def metaProcessRecord (now : PyVal) (record : Dct) : List MCol → Option (List PyVal)
  | [] => some []
  | c :: cs =>
    match metaProcessCol now record c with
    | none => none
    | some v => (metaProcessRecord now record cs).map (fun l => v :: l)

/-- The nested-array detection of `process_nested_response` (lines 477-486):
fields whose value is a dictionary with a `data` list. -/
def nestedArraysOf (d : Dct) : List (String × List PyVal) :=
  d.filterMap (fun kv =>
    match kv.2 with
    | VDict d₂ =>
      match dget d₂ "data" with
      | some (VList xs) => some (kv.1, xs)
      | _ => none
    | _ => none)

/-- Rows produced for one response record (lines 538-561, session-less path;
the `session` path only adds paginated items to the same per-item loop, and
HTTP pagination is I/O outside the model): one row per item of each nested
array, the item substituted for the whole array in a copy of the record;
one row for the record itself when it has no nested arrays. -/
def metaRowsForRecord (now : PyVal) (cols : List MCol) : PyVal → Option (List (List PyVal))
  | VDict flds =>
    match nestedArraysOf flds with
    | [] => (metaProcessRecord now flds cols).map (fun row => [row])
    | na =>
      (optMapM (fun (p : String × List PyVal) =>
        optMapM (fun it =>
          metaProcessRecord now (dset flds p.1 (VDict [("data", VList [it])])) cols) p.2)
        na).map List.flatten
  | _ => none

/-- `MetaAdsPipeline.process_nested_response` over `response["data"]`
(absent `data` yields no rows); a non-list `data` value is outside the
modelled fragment. -/
def metaProcessNestedResponse (now : PyVal) (cols : List MCol) (resp : Dct) :
    Option (List (List PyVal)) :=
  match dget resp "data" with
  | none => some []
  | some (VList recs) =>
    (optMapM (metaRowsForRecord now cols) recs).map List.flatten
  | some _ => none

/-! ## Meta Ads `_generate_api_fields` (lines 153-215) -/

/-- Ordered-set insertion (`set.add` with the insertion order of first
appearance as the enumeration order carried by the model; the final output is
sorted, and the invariance theorem below shows any enumeration order gives
the same string). -/
def setAdd (l : List String) (x : String) : List String :=
  if x ∈ l then l else l ++ [x]

/-- `nested_fields[top] = set()` initialisation when absent. -/
def nestedInit (n : List (String × List String)) (top : String) :
    List (String × List String) :=
  if n.any (fun p => p.1 = top) then n else n ++ [(top, [])]

/-- `nested_fields[top].add(child)`. -/
def nestedAdd (n : List (String × List String)) (top child : String) :
    List (String × List String) :=
  n.map (fun p => if p.1 = top then (p.1, setAdd p.2 child) else p)

/-- Python `sorted(...)` on strings. -/
def pySorted (l : List String) : List String :=
  l.insertionSort (· ≤ ·)

/-- The field-collection loop of `_generate_api_fields` (lines 159-197):
accumulate the `api_fields` set and the `nested_fields` structure. -/
def metaCollectFields (cols : List MCol) : List String × List (String × List String) :=
  cols.foldl
    (fun st c =>
      if c.auto_generate || c.is_breakdown then st
      else
        let sf := c.source_field.getD ""
        if c.deep_nested && optTruthy c.path_to_value then
          match pySplit '.' (c.path_to_value.getD "") with
          | [] => st
          | top :: rest =>
            let api := setAdd st.1 top
            if rest.isEmpty then (api, st.2)
            else
              let nestedPath := rest.filter (fun s => !pyIsDigit s)
              let n := nestedInit st.2 top
              if nestedPath.isEmpty then (api, n)
              else (api, nestedAdd n top (nestedPath.getLastD ""))
        else if sf.data.contains '.' then
          (setAdd st.1 ((pySplit '.' sf).headD ""), st.2)
        else (setAdd st.1 sf, st.2))
    ([], [])

/-- Assembly of the final fields string (lines 199-215): drop empty names,
splice each nonempty nested set in as `parent\x7bchild,...\x7d` (removing the bare
parent), and join the sorted result with commas.  The list arguments stand
for one enumeration order of the Python sets. -/
def metaAssembleFields (api : List String) (nested : List (String × List String)) :
    String :=
  let fieldsList := api.filter (fun f => !(f == ""))
  let final := nested.foldl
    (fun fl p =>
      if p.2.isEmpty then fl
      else
        let nestedStr := p.1 ++ "\x7b" ++ String.intercalate "," (pySorted p.2) ++ "\x7d"
        (if p.1 ∈ fl then fl.erase p.1 else fl) ++ [nestedStr])
    fieldsList
  String.intercalate "," (pySorted final)

/-- `MetaAdsPipeline._generate_api_fields`. -/
def metaGenerateApiFields (cols : List MCol) : String :=
  let st := metaCollectFields cols
  metaAssembleFields st.1 st.2

/-! ## Xero pipeline (xero-data-pipeline-new-module/xero_data_pipeline.py) -/

/-- One entry of the Xero column definitions as `extract_record_values`
reads it. -/
structure XCol where
  name : String
  ctype : String
  source_field : Option String
  is_nested : Bool
  auto_generate : Bool

/-- `XeroDataPipeline.extract_nested_value`, regular dotted-path branch
(lines 748-758): truthiness-guarded dictionary descent, `None` when any
segment fails. -/
def xeroNestedDots (record : PyVal) : List String → PyVal
  | [] => record
  | part :: rest =>
    match record with
    | VDict d =>
      if pyTruthy (VDict d) && (dget d part).isSome then
        xeroNestedDots ((dget d part).getD VNone) rest
      else VNone
    | _ => VNone

/-- One step of the bracket-syntax branch (lines 723-743): `field[idx]` parts
index into a list member, plain parts descend as dictionary keys; any
failure (including the `int(...)`/type errors its `except` catches)
yields `None`. -/
def xeroNestedBrackets (record : PyVal) : List String → PyVal
  | [] => record
  | part :: rest =>
    if part.data.contains '[' && part.data.contains ']' then
      let fieldName := ((pySplit '[' part).headD "")
      let idxStr := ((pySplit ']' ((pySplit '[' part).getD 1 "")).headD "")
      match parseNatChars idxStr.data with
      | none => VNone
      | some idx =>
        match record with
        | VDict d =>
          if pyTruthy (VDict d) && (dget d fieldName).isSome then
            match (dget d fieldName).getD VNone with
            | VList xs =>
              if h : idx < xs.length then xeroNestedBrackets (xs.get ⟨idx, h⟩) rest
              else VNone
            | _ => VNone
          else VNone
        | _ => VNone
    else
      match record with
      | VDict d =>
        if pyTruthy (VDict d) && (dget d part).isSome then
          xeroNestedBrackets ((dget d part).getD VNone) rest
        else VNone
      | _ => VNone

/-- `XeroDataPipeline.extract_nested_value`. -/
def xeroExtractNested (record : Dct) (fieldPath : String) : PyVal :=
  if fieldPath.data.contains '[' && fieldPath.data.contains ']' then
    xeroNestedBrackets (VDict record) (pySplit '.' fieldPath)
  else
    xeroNestedDots (VDict record) (pySplit '.' fieldPath)

/-- Resolution of one column of `XeroDataPipeline.extract_record_values`:
auto-generated columns yield the processing timestamp (for `processed_at`)
or `None`; nested columns use the dotted/bracket path walk; direct columns
use `record.get(source_field)`.  A nested column without a source field is a
configuration the source crashes on (`"[" in None`); none of the deployed
column sets has one, and it is modelled as `None`. -/
def xeroExtractOne (now : PyVal) (record : Dct) (c : XCol) : PyVal :=
  if c.auto_generate then
    (if c.name = "processed_at" then now else VNone)
  else if c.is_nested then
    match c.source_field with
    | some sf => xeroExtractNested record sf
    | none => VNone
  else
    match c.source_field with
    | some sf => (dget record sf).getD VNone
    | none => VNone

/-- `XeroDataPipeline.extract_record_values`: one appended value per column
definition, in order. -/
def xeroExtractRecordValues (now : PyVal) (record : Dct) : List XCol → List PyVal
  | [] => []
  | c :: cs => xeroExtractOne now record c :: xeroExtractRecordValues now record cs

/-- `XeroDataPipeline.adjust_quantity_for_product`: multiply by the
configured packaging multiplier when the item name is a key of the
multiplier table (a string-keyed dict of ints); non-string names never match
a key (an unhashable name would raise, which no claim exercises). -/
def adjustQuantity (mults : List (String × Int)) (itemName q : PyVal) :
    Option PyVal :=
  match itemName with
  | VStr s =>
    match mults.lookup s with
    | some m => pyMul q (VInt m)
    | none => some q
  | VList _ => none
  | VDict _ => none
  | _ => some q

/-- `credit_note.get("Contact", {}).get("Name", "No Name Provided")`:
the outer default is an empty dict; a non-dict value raises. -/
def xeroContactName (d : Dct) : Option PyVal :=
  match (dget d "Contact").getD (VDict []) with
  | VDict c => some ((dget c "Name").getD (VStr "No Name Provided"))
  | _ => none

/-- The `Attachments` entry of the base credit-note data (line 529):
`[{"Url": attachments[0].get("Url", "") if truthy else ""}]`. -/
def xeroAttachmentsUrl (d : Dct) : Option PyVal :=
  if pyTruthy ((dget d "Attachments").getD VNone) then
    match (dget d "Attachments").getD (VList [VDict []]) with
    | VList (first :: _) =>
      match first with
      | VDict a => some ((dget a "Url").getD (VStr ""))
      | _ => none
    | _ => none
  else some (VStr "")

/-- `base_credit_note_data` (lines 517-530). -/
def xeroCreditBase (d : Dct) : Option Dct :=
  (xeroContactName d).bind (fun contactName =>
    (xeroAttachmentsUrl d).map (fun url =>
      [("Type", dgetD d "Type" (VStr "")),
       ("CreditNoteID", dgetD d "CreditNoteID" (VStr "")),
       ("CreditNoteNumber", dgetD d "CreditNoteNumber" (VStr "")),
       ("Reference", dgetD d "Reference" (VStr "")),
       ("Total", dgetD d "Total" (VInt 0)),
       ("CurrencyRate", dgetD d "CurrencyRate" (VInt 1)),
       ("Contact", VDict [("Name", contactName)]),
       ("DateString", dgetD d "DateString" (VStr "")),
       ("Status", dgetD d "Status" (VStr "")),
       ("CurrencyCode", dgetD d "CurrencyCode" (VStr "")),
       ("SubTotal", dgetD d "SubTotal" (VInt 0)),
       ("Attachments", VList [VDict [("Url", url)]])]))

/-- `item_name` for a line item (line 544). -/
def xeroItemName (li : Dct) : Option PyVal :=
  match (dget li "Item").getD (VDict []) with
  | VDict item => some ((dget item "Name").getD (dgetD li "Description" (VStr "No Item Name")))
  | _ => none

/-- `Item.Code` for a line item (line 562). -/
def xeroItemCode (li : Dct) : Option PyVal :=
  match (dget li "Item").getD (VDict []) with
  | VDict item => some ((dget item "Code").getD (VStr "No Item Code"))
  | _ => none

/-- One output row of `process_credit_notes` for one line item (lines
539-574): sign-adjusted unit amount and quantity, the line-item dictionary
substituted into a copy of the base data, then `extract_record_values`. -/
def xeroCreditRow (now : PyVal) (mults : List (String × Int))
    (cols : List XCol) (d : Dct) (base : Dct) (sign : Int) (liv : PyVal) :
    Option (List PyVal) :=
  match liv with
  | VDict li =>
    (xeroItemName li).bind (fun itemName =>
      (xeroItemCode li).bind (fun itemCode =>
        let unitRaw : Option PyVal :=
          if optIsStr (dget d "LineAmountTypes") "Inclusive"
              && (dget li "LineAmount").isSome && (dget li "TaxAmount").isSome then
            (pySub (dgetD li "LineAmount" VNone) (dgetD li "TaxAmount" VNone)).bind
              (fun diff => pyMul (VInt sign) diff)
          else pyMul (VInt sign) (dgetD li "LineAmount" (VInt 0))
        unitRaw.bind (fun unitAmount =>
          ((adjustQuantity mults itemName (dgetD li "Quantity" (VInt 0))).bind
            (fun adj => pyMul (VInt sign) adj)).map (fun quantity =>
            let lineItemData := VDict
              [("Item", VDict [("Name", itemName), ("Code", itemCode)]),
               ("Quantity", quantity),
               ("UnitAmount", unitAmount),
               ("AccountCode", dgetD li "AccountCode" (VStr ""))]
            xeroExtractRecordValues now (dsetNew base "LineItems" lineItemData) cols))))
  | _ => none

/-- `XeroDataPipeline.process_credit_notes`: per credit note, build the base
data, compute the sign from the `Type` (`ACCPAYCREDIT` keeps the sign, any
other type negates), and emit one extracted row per line item. -/
def xeroProcessCreditNotes (now : PyVal) (mults : List (String × Int))
    (cols : List XCol) (creditNotes : List PyVal) : Option (List (List PyVal)) :=
  (optMapM (fun cnv =>
    match cnv with
    | VDict d =>
      (xeroCreditBase d).bind (fun base =>
        let sign : Int := if optIsStr (dget d "Type") "ACCPAYCREDIT" then 1 else -1
        match dgetD d "LineItems" (VList []) with
        | VList lis => optMapM (xeroCreditRow now mults cols d base sign) lis
        | _ => none)
    | _ => none) creditNotes).map List.flatten

/-- `CREDIT_NOTES_COLUMN_DEFINITIONS` from
xero-data-pipeline-new-module/config.py. -/
def xeroCreditCols : List XCol :=
  [⟨"type", "STRING", some "Type", false, false⟩,
   ⟨"credit_note_id", "STRING", some "CreditNoteID", false, false⟩,
   ⟨"credit_note_number", "STRING", some "CreditNoteNumber", false, false⟩,
   ⟨"reference", "STRING", some "Reference", false, false⟩,
   ⟨"amount_credited", "FLOAT64", some "Total", false, false⟩,
   ⟨"url", "STRING", some "Attachments.Url", true, false⟩,
   ⟨"currency_rate", "FLOAT64", some "CurrencyRate", false, false⟩,
   ⟨"contact_name", "STRING", some "Contact.Name", true, false⟩,
   ⟨"date", "DATE", some "DateString", false, false⟩,
   ⟨"status", "STRING", some "Status", false, false⟩,
   ⟨"unit_amount", "FLOAT64", some "LineItems.UnitAmount", true, false⟩,
   ⟨"item_name", "STRING", some "LineItems.Item.Name", true, false⟩,
   ⟨"item_code", "STRING", some "LineItems.Item.Code", true, false⟩,
   ⟨"quantity", "FLOAT64", some "LineItems.Quantity", true, false⟩,
   ⟨"sub_total", "FLOAT64", some "SubTotal", false, false⟩,
   ⟨"currency_code", "STRING", some "CurrencyCode", false, false⟩,
   ⟨"account_code", "STRING", some "LineItems.AccountCode", true, false⟩,
   ⟨"processed_at", "TIMESTAMP", none, false, true⟩]

/-! ## Statement-level helpers -/

/-- The first path segment after wildcard replacement: the only record key
the deep-nested navigation reads at the top level. -/
def pathHead (path : String) : String :=
  let segs₀ := pySplit '.' path
  let segs :=
    match findStar segs₀ with
    | some k => segs₀.set k "0"
    | none => segs₀
  segs.headD ""

/-- The record key the deep-nested branch reads at the top level. -/
def deepEffectiveHead (c : MCol) : String :=
  pathHead (c.path_to_value.getD "")

/-- The top-level record keys the resolution of one Meta column can read;
a column avoiding a key resolves identically on records that differ only at
that key. -/
def mcolTouched (c : MCol) : List String :=
  if c.auto_generate then []
  else if c.deep_nested && optTruthy c.path_to_value then [deepEffectiveHead c]
  else if c.is_nested && optTruthy c.action_filter then ["action_values", "actions"]
  else if c.is_nested then
    match c.source_field with
    | none => []
    | some sf =>
      if sf.data.contains '.' then
        match pySplit '.' sf with
        | [parent, _] => [parent]
        | _ => []
      else []
  else
    match c.source_field with
    | none => []
    | some sf => [sf]

/-- Pure dictionary descent along path segments (the denotation of the
navigation hypothesis in the wildcard theorem): `none` when a segment is not
a dictionary key. -/
def dictChain : PyVal → List String → Option PyVal
  | v, [] => some v
  | v, s :: rest =>
    match v with
    | VDict d => (dget d s).bind (fun v₂ => dictChain v₂ rest)
    | _ => none

/-- The value the action-filter scan denotes on a well-formed action array:
the `value` of the first element whose `action_type` equals the filter,
`""` when none matches. -/
def firstMatchValue (f : String) (ds : List Dct) : PyVal :=
  match ds.find? (fun d => optIsStr (dget d "action_type") f) with
  | some d => dgetD d "value" (VStr "")
  | none => VStr ""

/-- A list of dictionaries as a `PyVal` list (well-formed action array). -/
def vdictList (ds : List Dct) : List PyVal :=
  ds.map VDict

/-- A Xero line item with the numeric fields the sign claim is about. -/
def mkXeroLineItem (nm cd : String) (q a t : Rat) (ac : String) : PyVal :=
  VDict [("Item", VDict [("Name", VStr nm), ("Code", VStr cd)]),
         ("Quantity", VFloat q),
         ("LineAmount", VFloat a),
         ("TaxAmount", VFloat t),
         ("AccountCode", VStr ac)]

/-- A Xero credit note with the given type, line-amount mode and items
(the other header fields all take their source defaults). -/
def mkXeroCreditNote (ty lat : String) (lis : List PyVal) : PyVal :=
  VDict [("Type", VStr ty), ("LineAmountTypes", VStr lat), ("LineItems", VList lis)]

/-- The multiplier-adjusted quantity of `adjust_quantity_for_product`, at the
rational level. -/
def xeroAdjustedQty (mults : List (String × Int)) (nm : String) (q : Rat) : Rat :=
  match mults.lookup nm with
  | some m => q * (m : Rat)
  | none => q

/-! ## Decimal printing/parsing round trip -/

theorem charDigit_digitChar {d : Nat} (h : d < 10) : charDigit (digitChar d) = d := by
  interval_cases d <;> decide

theorem isDigitCh_digitChar {d : Nat} (h : d < 10) : isDigitCh (digitChar d) = true := by
  interval_cases d <;> decide

theorem ne_minus_of_isDigitCh {c : Char} (h : isDigitCh c = true) : c ≠ '-' := by
  intro hc
  subst hc
  simp [isDigitCh] at h

theorem natChars_ne_nil (n : Nat) : natChars n ≠ [] := by
  unfold natChars
  split
  · simp
  · rename_i hn
    simp [Nat.digits_ne_nil_iff_ne_zero, hn]

theorem natChars_all_digit (n : Nat) : (natChars n).all isDigitCh = true := by
  unfold natChars
  split
  · rfl
  · rw [List.all_eq_true]
    intro c hc
    rw [List.mem_reverse, List.mem_map] at hc
    obtain ⟨d, hd, rfl⟩ := hc
    exact isDigitCh_digitChar (Nat.digits_lt_base (by norm_num) hd)

theorem parseNatChars_natChars (n : Nat) : parseNatChars (natChars n) = some n := by
  unfold parseNatChars
  rw [if_pos ⟨natChars_ne_nil n, natChars_all_digit n⟩]
  congr 1
  unfold natChars
  split
  · rename_i h
    subst h
    decide
  · rw [List.map_reverse, List.reverse_reverse, List.map_map]
    have hmap : (Nat.digits 10 n).map (charDigit ∘ digitChar) = Nat.digits 10 n :=
      (List.map_congr_left fun d hd =>
        charDigit_digitChar (Nat.digits_lt_base (by norm_num) hd)).trans (List.map_id _)
    rw [hmap, Nat.ofDigits_digits]

theorem parseIntChars_intChars (n : Int) : parseIntChars (intChars n) = some n := by
  unfold intChars
  split
  · rename_i hn
    simp only [parseIntChars, if_pos rfl, parseNatChars_natChars, Option.map_some',
      if_true, Option.some.injEq]
    omega
  · rename_i hn
    obtain ⟨c, cs, hcs⟩ : ∃ c cs, natChars n.natAbs = c :: cs := by
      cases h : natChars n.natAbs with
      | nil => exact absurd h (natChars_ne_nil _)
      | cons c cs => exact ⟨c, cs, rfl⟩
    have hdig : isDigitCh c = true := by
      have := natChars_all_digit n.natAbs
      rw [hcs, List.all_cons, Bool.and_eq_true] at this
      exact this.1
    rw [hcs]
    simp only [parseIntChars, if_neg (ne_minus_of_isDigitCh hdig), ← hcs,
      parseNatChars_natChars, Option.map_some', Option.some.injEq]
    omega

/-! ## Claims C3, C4, C5 -/

/-- Claim C3 (amended): coercing the stringification of a value back to its
type recovers the value for every INTEGER and for BOOLEAN `true`; BOOLEAN
`false` stringifies to `"False"`, which the truthiness coercion maps to
`true`, so the round trip fails there (see the counterexample). -/
theorem coerce_stringify_id (n : Int) :
    googleConvertValue (VStr (pyStr (VInt n))) "INTEGER" = VInt n ∧
    googleConvertValue (VStr (pyStr (VBool true))) "BOOLEAN" = VBool true := by
  constructor
  · show googleConvertValue (VStr (String.mk (intChars n))) "INTEGER" = VInt n
    simp only [googleConvertValue, pyToInt, pyParseInt]
    have : parseIntChars (String.mk (intChars n)).data = some n := by
      show parseIntChars (intChars n) = some n
      exact parseIntChars_intChars n
    rw [this]
    simp
  · rfl

/-- Claim C3 counterexample: the BOOLEAN round trip fails at `false`:
`str(False) = "False"` is a nonempty string, and `bool("False") = True`. -/
theorem coerce_stringify_bool_false :
    googleConvertValue (VStr (pyStr (VBool false))) "BOOLEAN" = VBool true ∧
    VBool true ≠ VBool false := by
  exact ⟨rfl, by simp⟩

/-- Claim C4 (amended): the coercer is total (a Lean function); `None` input
yields the type default; for INTEGER, FLOAT64, STRING and BOOLEAN the result
is always a legal value of the declared type (the defaults included); for
DATE and TIMESTAMP a non-`None` input is passed through unchanged rather than
defaulted or validated. -/
theorem convert_value_total (v : PyVal) (t : String) :
    (v = VNone → googleConvertValue v t = googleDefaultValue t) ∧
    (t = "INTEGER" ∨ t = "FLOAT64" ∨ t = "STRING" ∨ t = "BOOLEAN" →
      isLegalValue (googleConvertValue v t) t = true) ∧
    (v ≠ VNone → t = "DATE" ∨ t = "TIMESTAMP" → googleConvertValue v t = v) := by
  refine ⟨?_, ?_, ?_⟩
  · intro h
    subst h
    rfl
  · rintro (rfl | rfl | rfl | rfl) <;> cases v <;>
      first
        | rfl
        | (rename_i s
           simp only [googleConvertValue, pyToInt, pyToFloat]
           norm_num
           first
             | ((cases hp : pyParseInt s <;>
                  simp [hp, isLegalValue, googleDefaultValue]); done)
             | ((cases hp : pyParseFloat s <;>
                  simp [hp, isLegalValue, googleDefaultValue]); done))
  · rintro hv (rfl | rfl) <;> cases v <;> simp [googleConvertValue] at hv ⊢

/-- Claim C4 counterexample: an integer input declared as DATE is passed
through unchanged: the result is neither a legal DATE value nor the DATE
default `None`. -/
theorem convert_value_date_passthrough :
    googleConvertValue (VInt 5) "DATE" = VInt 5 ∧
    isLegalValue (VInt 5) "DATE" = false ∧
    VInt 5 ≠ googleDefaultValue "DATE" := by
  refine ⟨rfl, rfl, ?_⟩
  simp [googleDefaultValue]

/-- Witness for `convert_value_total` at concrete inputs. -/
theorem convert_value_total_witness :
    googleConvertValue VNone "INTEGER" = googleDefaultValue "INTEGER" ∧
    isLegalValue (googleConvertValue (VStr "abc") "FLOAT64") "FLOAT64" = true ∧
    googleConvertValue (VStr "not-a-date") "TIMESTAMP" = VStr "not-a-date" := by
  refine ⟨?_, ?_, ?_⟩
  · exact (convert_value_total VNone "INTEGER").1 rfl
  · exact (convert_value_total (VStr "abc") "FLOAT64").2.1 (Or.inr (Or.inl rfl))
  · exact (convert_value_total (VStr "not-a-date") "TIMESTAMP").2.2 (by simp) (Or.inr rfl)

/-- Claim C5 (amended): a missing dotted path never raises in either
extractor; the Google Ads extractor returns the declared type's default,
while the Meta extractor's direct-field lookup returns the empty string
(typing is deferred to the DataFrame stage), not the type default. -/
theorem missing_path_default :
    (∀ (result : PyVal) (sf ty : String) (tr : Option (PyVal → PyVal)),
      sf ≠ "" →
      googleNavigate result ((pySplit '.' sf).map convertSnakeToCamel) = none →
      googleExtractValue result (some sf) ty tr = googleDefaultValue ty) ∧
    (∀ (now : PyVal) (record : Dct) (c : MCol) (sf : String),
      c.auto_generate = false → c.deep_nested = false → c.is_nested = false →
      c.source_field = some sf → dget record sf = none →
      metaProcessCol now record c = some (VStr "")) := by
  constructor
  · intro result sf ty tr hne hnav
    simp only [googleExtractValue, hnav, if_neg hne]
  · intro now record c sf hauto hdeep hnested hsf hget
    simp [metaProcessCol, hauto, hdeep, hnested, hsf, dgetD, hget, pyTruthy]

/-- Claim C5 counterexample: for a Meta column of INTEGER type whose source
field is absent from the record, extraction yields `""`, not the INTEGER
default `0` the claim requires. -/
theorem missing_path_meta_not_typed :
    metaProcessCol (VStr "ts") [] (mkDirectCol "clicks" "INTEGER" "clicks") =
      some (VStr "") ∧
    VStr "" ≠ googleDefaultValue "INTEGER" := by
  refine ⟨rfl, ?_⟩
  simp [googleDefaultValue]

/-- Witness for `missing_path_default` at concrete inputs. -/
theorem missing_path_default_witness :
    googleExtractValue (VDict []) (some "campaign.name") "INTEGER" none =
      googleDefaultValue "INTEGER" ∧
    metaProcessCol (VStr "ts") [] (mkDirectCol "ad_id" "STRING" "ad_id") =
      some (VStr "") := by
  constructor
  · exact missing_path_default.1 (VDict []) "campaign.name" "INTEGER" none
      (by decide) rfl
  · exact missing_path_default.2 (VStr "ts") [] (mkDirectCol "ad_id" "STRING" "ad_id")
      "ad_id" rfl rfl rfl rfl rfl

/-! ## Claim C6 -/

theorem scanActs_vdictList (f : String) (ds : List Dct) :
    scanActs f (vdictList ds) = some (firstMatchValue f ds) := by
  induction ds with
  | nil => rfl
  | cons d t ih =>
    by_cases h : optIsStr (dget d "action_type") f = true
    · simp [vdictList, scanActs, firstMatchValue, List.find?_cons, h]
    · rw [Bool.not_eq_true] at h
      simp only [vdictList, List.map_cons, scanActs, h, Bool.false_eq_true, if_false,
        firstMatchValue, List.find?_cons]
      simp only [vdictList, firstMatchValue] at ih
      exact ih

/-- Claim C6 (amended): for an `is_nested` column with a nonempty action
filter, extraction scans `record["action_values"]` when `is_value_from` is
`"action_values"` and that key is present in the record; otherwise it falls
back to `record["actions"]` when present; when neither applies it yields
`""`.  The scan returns the `value` of the first element whose `action_type`
equals the filter, `""` when no element matches.  Concretely, filter
`"purchase"` on `{"actions": [{"action_type": "click", "value": "5"},
{"action_type": "purchase", "value": "9"}]}` extracts `"9"`. -/
theorem action_filter_extraction :
    (∀ (now : PyVal) (record : Dct) (c : MCol) (f : String) (avs : List Dct),
      c.auto_generate = false → c.deep_nested = false → c.is_nested = true →
      c.action_filter = some f → f ≠ "" →
      c.is_value_from = some "action_values" →
      dget record "action_values" = some (VList (vdictList avs)) →
      metaProcessCol now record c = some (firstMatchValue f avs)) ∧
    (∀ (now : PyVal) (record : Dct) (c : MCol) (f : String) (acts : List Dct),
      c.auto_generate = false → c.deep_nested = false → c.is_nested = true →
      c.action_filter = some f → f ≠ "" →
      (c.is_value_from = some "action_values" → dget record "action_values" = none) →
      dget record "actions" = some (VList (vdictList acts)) →
      metaProcessCol now record c = some (firstMatchValue f acts)) ∧
    (∀ (now : PyVal) (record : Dct) (c : MCol) (f : String),
      c.auto_generate = false → c.deep_nested = false → c.is_nested = true →
      c.action_filter = some f → f ≠ "" →
      (c.is_value_from = some "action_values" → dget record "action_values" = none) →
      dget record "actions" = none →
      metaProcessCol now record c = some (VStr "")) ∧
    metaProcessCol (VStr "ts")
      [("actions", VList [VDict [("action_type", VStr "click"), ("value", VStr "5")],
                          VDict [("action_type", VStr "purchase"), ("value", VStr "9")]])]
      ⟨"purchases", "INTEGER", some "actions.value", true, some "purchase",
        false, none, false, none, false, ",", false⟩ = some (VStr "9") := by
  refine ⟨?_, ?_, ?_, rfl⟩
  · intro now record c f avs hauto hdeep hnested hfilt hf hiv hav
    simp [metaProcessCol, hauto, hdeep, hnested, hfilt, optTruthy, hf, hiv, hav, dgetD,
      iterElems, scanActs_vdictList]
  · intro now record c f acts hauto hdeep hnested hfilt hf himp hact
    by_cases hiv : c.is_value_from = some "action_values"
    · have hav := himp hiv
      simp [metaProcessCol, hauto, hdeep, hnested, hfilt, optTruthy, hf, hiv, hav, hact,
        dgetD, iterElems, scanActs_vdictList]
    · simp [metaProcessCol, hauto, hdeep, hnested, hfilt, optTruthy, hf, hiv, hact,
        dgetD, iterElems, scanActs_vdictList]
  · intro now record c f hauto hdeep hnested hfilt hf himp hact
    by_cases hiv : c.is_value_from = some "action_values"
    · have hav := himp hiv
      simp [metaProcessCol, hauto, hdeep, hnested, hfilt, optTruthy, hf, hiv, hav, hact]
    · simp [metaProcessCol, hauto, hdeep, hnested, hfilt, optTruthy, hf, hiv, hact]

/-- Claim C6 counterexample: with `is_value_from = "action_values"` set but
no `action_values` key in the record, the source falls back to scanning
`actions` and extracts `"9"`, where the claim prescribes scanning only the
override array and hence the empty default. -/
theorem action_filter_fallback :
    metaProcessCol (VStr "ts")
      [("actions", VList [VDict [("action_type", VStr "purchase"), ("value", VStr "9")]])]
      ⟨"purchase_value", "FLOAT64", some "action_values.value", true, some "purchase",
        false, some "action_values", false, none, false, ",", false⟩ = some (VStr "9") ∧
    VStr "9" ≠ VStr "" := by
  refine ⟨rfl, by simp⟩

/-- Witness for `action_filter_extraction` at concrete inputs. -/
theorem action_filter_extraction_witness :
    metaProcessCol (VStr "ts")
      [("action_values", VList [VDict [("action_type", VStr "purchase"), ("value", VStr "7")]])]
      ⟨"purchase_value", "FLOAT64", some "action_values.value", true, some "purchase",
        false, some "action_values", false, none, false, ",", false⟩ =
      some (firstMatchValue "purchase"
        [[("action_type", VStr "purchase"), ("value", VStr "7")]]) := by
  exact action_filter_extraction.1 (VStr "ts") _ _ "purchase"
    [[("action_type", VStr "purchase"), ("value", VStr "7")]]
    rfl rfl rfl rfl (by decide) rfl rfl

/-! ## Claim C7 -/

theorem findStar_append (suf : List String) :
    ∀ pre : List String, "*" ∉ pre →
    findStar (pre ++ "*" :: suf) = some pre.length := by
  intro pre
  induction pre with
  | nil => intro _; simp [findStar]
  | cons s t ih =>
    intro h
    have hs : ¬(s = "*") := fun hc => h (by simp [hc])
    simp only [List.cons_append, List.append_eq, findStar, hs, if_false]
    rw [ih (fun hc => h (List.mem_cons_of_mem _ hc))]
    simp

theorem set_append_cons (y : String) (x : String) (suf : List String) :
    ∀ pre : List String, (pre ++ x :: suf).set pre.length y = pre ++ y :: suf := by
  intro pre
  induction pre with
  | nil => rfl
  | cons s t ih => simp [List.set, ih]

theorem drop_append_cons (x : String) (suf : List String) :
    ∀ pre : List String, (pre ++ x :: suf).drop (pre.length + 1) = suf := by
  intro pre
  induction pre with
  | nil => rfl
  | cons s t ih => simpa using ih

theorem mnav_cons_eq (aAll : Bool) (aPos : Option Nat) (seg : String)
    (rest : List String) (i : Nat) (cur : PyVal) (coll : Bool) (ap : Nat) :
    mnav aAll aPos (seg :: rest) i cur coll ap =
    (if pyIsDigit seg then
      match (if aAll && !coll then
               match aPos with
               | none => none
               | some p => some (decide (i = p))
             else some false : Option Bool) with
      | none => none
      | some hit =>
        let coll₂ := coll || hit
        let ap₂ := if hit then i else ap
        if hit && isList cur then some (cur, coll₂, ap₂)
        else
          match cur with
          | VList xs =>
            let idx := (parseNatChars seg.data).getD 0
            if h : idx < xs.length then
              mnav aAll aPos rest (i + 1) (xs.get ⟨idx, h⟩) coll₂ ap₂
            else some (VStr "", coll₂, ap₂)
          | VDict d =>
            match dget d seg with
            | some v => mnav aAll aPos rest (i + 1) v coll₂ ap₂
            | none => some (VStr "", coll₂, ap₂)
          | _ => some (VStr "", coll₂, ap₂)
    else
      match cur with
      | VDict d =>
        match dget d seg with
        | some v =>
          if isList v && aAll then
            match aPos with
            | none => none
            | some p =>
              if i + 1 = p then some (v, true, i + 1)
              else mnav aAll aPos rest (i + 1) v coll ap
          else mnav aAll aPos rest (i + 1) v coll ap
        | none => some (VStr "", coll, ap)
      | _ => some (VStr "", coll, ap)) := rfl

theorem mnav_step_dict (aAll : Bool) (aPos : Option Nat) (seg : String)
    (rest : List String) (i : Nat) (d d₂ : Dct) (coll : Bool) (ap : Nat)
    (hs : pyIsDigit seg = false) (hv : dget d seg = some (VDict d₂)) :
    mnav aAll aPos (seg :: rest) i (VDict d) coll ap =
      mnav aAll aPos rest (i + 1) (VDict d₂) coll ap := by
  rw [mnav_cons_eq]
  simp [hs, hv, isList]

theorem mnav_break (seg : String) (rest : List String) (i : Nat) (d : Dct)
    (items : List PyVal) (coll : Bool) (ap : Nat)
    (hs : pyIsDigit seg = false) (hv : dget d seg = some (VList items)) :
    mnav true (some (i + 1)) (seg :: rest) i (VDict d) coll ap =
      some (VList items, true, i + 1) := by
  rw [mnav_cons_eq]
  simp [hs, hv, isList]

theorem mnav_dictChain (suf : List String) (items : List PyVal) :
    ∀ (pre : List String) (i : Nat) (cur : PyVal), pre ≠ [] →
    (∀ s ∈ pre, pyIsDigit s = false) →
    dictChain cur pre = some (VList items) →
    mnav true (some (i + pre.length)) (pre ++ "0" :: suf) i cur false 0 =
      some (VList items, true, i + pre.length) := by
  intro pre
  induction pre with
  | nil => intro i cur h; exact absurd rfl h
  | cons s t ih =>
    intro i cur _ hdig hchain
    have hs : pyIsDigit s = false := hdig s (List.mem_cons_self _ _)
    cases cur with
    | VDict d =>
      simp only [dictChain] at hchain
      cases hv : dget d s with
      | none => rw [hv] at hchain; simp at hchain
      | some v =>
        rw [hv, Option.some_bind] at hchain
        cases t with
        | nil =>
          simp only [dictChain] at hchain
          injection hchain with hveq
          subst hveq
          have hlen : i + ([s] : List String).length = i + 1 := by simp
          rw [List.cons_append, List.nil_append, hlen]
          exact mnav_break s ("0" :: suf) i d items false 0 hs hv
        | cons s₂ t₂ =>
          have hvdict : ∃ d₂, v = VDict d₂ := by
            cases v with
            | VDict d₂ => exact ⟨d₂, rfl⟩
            | VNone => simp [dictChain] at hchain
            | VBool b => simp [dictChain] at hchain
            | VInt n => simp [dictChain] at hchain
            | VFloat q => simp [dictChain] at hchain
            | VStr str => simp [dictChain] at hchain
            | VList xs => simp [dictChain] at hchain
          obtain ⟨d₂, rfl⟩ := hvdict
          have harith : i + (s :: s₂ :: t₂ : List String).length =
              (i + 1) + (s₂ :: t₂ : List String).length := by
            simp
            omega
          rw [harith, List.cons_append,
            mnav_step_dict true (some (i + 1 + (s₂ :: t₂ : List String).length))
              s ((s₂ :: t₂) ++ "0" :: suf) i d d₂ false 0 hs hv]
          exact ih (i + 1) (VDict d₂) (by simp)
            (fun s₃ hs₃ => hdig s₃ (List.mem_cons_of_mem _ hs₃)) hchain
    | VNone => simp [dictChain] at hchain
    | VBool b => simp [dictChain] at hchain
    | VInt n => simp [dictChain] at hchain
    | VFloat q => simp [dictChain] at hchain
    | VStr str => simp [dictChain] at hchain
    | VList xs => simp [dictChain] at hchain

theorem filterMap_itemString (suf : List String) (items : List PyVal)
    (h : ∀ it ∈ items, applyRemaining it suf ≠ VNone) :
    items.filterMap (fun it => itemString (applyRemaining it suf)) =
      items.map (fun it => pyStr (applyRemaining it suf)) := by
  induction items with
  | nil => rfl
  | cons x t ih =>
    have hx : itemString (applyRemaining x suf) = some (pyStr (applyRemaining x suf)) := by
      have hne := h x (List.mem_cons_self _ _)
      cases happ : applyRemaining x suf with
      | VNone => exact absurd happ hne
      | VBool b => rfl
      | VInt n => rfl
      | VFloat q => rfl
      | VStr s => rfl
      | VList xs => rfl
      | VDict d => rfl
    simp only [List.filterMap_cons, hx, List.map_cons]
    rw [ih (fun it hit => h it (List.mem_cons_of_mem _ hit))]

/-- Claim C7: for a deep-nested column whose path has a wildcard segment
preceded by a nonempty dictionary-key path that reaches an array, extraction
collects every element of that array, applies the remaining path suffix to
each element (an element whose suffix segments are missing resolves to `""`,
not an error — see `applyRemaining`), and joins the elements' string
representations with the configured delimiter into a single value. -/
theorem deep_wildcard_join (now : PyVal) (record : Dct) (c : MCol)
    (path delim : String) (pre suf : List String) (items : List PyVal)
    (hauto : c.auto_generate = false) (hdeep : c.deep_nested = true)
    (hpath : c.path_to_value = some path) (hdelim : c.join_delimiter = delim)
    (hsplit : pySplit '.' path = pre ++ "*" :: suf)
    (hpre : ∀ s ∈ pre, pyIsDigit s = false ∧ s ≠ "*")
    (hpre_ne : pre ≠ [])
    (hchain : dictChain (VDict record) pre = some (VList items))
    (hnone : ∀ it ∈ items, applyRemaining it suf ≠ VNone) :
    metaProcessCol now record c =
      some (VStr (String.intercalate delim
        (items.map (fun it => pyStr (applyRemaining it suf))))) := by
  have hpathne : path ≠ "" := by
    intro hc
    subst hc
    have : "*" ∈ pySplit '.' "" := by rw [hsplit]; simp
    simp [pySplit, splitCharAux] at this
  have hstar_pre : "*" ∉ pre := fun hc => (hpre _ hc).2 rfl
  have htr : optTruthy (some path) = true := by simp [optTruthy, hpathne]
  simp only [metaProcessCol, hauto, Bool.false_eq_true, if_false, hdeep, hpath, htr,
    Bool.and_self, if_true, Option.getD_some, hdelim]
  unfold metaDeepExtract
  simp only [hsplit, findStar_append suf pre hstar_pre]
  rw [set_append_cons]
  have hnav := mnav_dictChain suf items pre 0 (VDict record) hpre_ne
    (fun s hs => (hpre s hs).1) hchain
  rw [Nat.zero_add] at hnav
  rw [hnav]
  dsimp only []
  have hremaining :
      (if pre.length < (pre ++ "0" :: suf).length - 1
       then (pre ++ "0" :: suf).drop (pre.length + 1) else []) = suf := by
    cases hsuf : suf with
    | nil => rw [if_neg (by simp)]
    | cons a b =>
      rw [if_pos (by simp), drop_append_cons]
  rw [hremaining, filterMap_itemString suf items hnone]
  cases items with
  | nil => simp [String.intercalate]
  | cons x t =>
    rw [if_neg (by simp)]
    simp

/-- Witness for `deep_wildcard_join` at the specification's concrete
scenario: path `items.data.*.name` with delimiter `", "` yields `"a, b"`. -/
theorem deep_wildcard_join_witness :
    metaProcessCol (VStr "ts")
      [("items", VDict [("data",
        VList [VDict [("name", VStr "a")], VDict [("name", VStr "b")]])])]
      ⟨"names", "STRING", none, false, none, false, none, true,
        some "items.data.*.name", true, ", ", false⟩ = some (VStr "a, b") := by
  have h := deep_wildcard_join (VStr "ts")
    [("items", VDict [("data",
      VList [VDict [("name", VStr "a")], VDict [("name", VStr "b")]])])]
    ⟨"names", "STRING", none, false, none, false, none, true,
      some "items.data.*.name", true, ", ", false⟩
    "items.data.*.name" ", " ["items", "data"] ["name"]
    [VDict [("name", VStr "a")], VDict [("name", VStr "b")]]
    rfl rfl rfl rfl rfl
    (by intro s hs; fin_cases hs <;> exact ⟨rfl, by decide⟩)
    (by simp)
    rfl
    (by
      intro it hit
      simp only [List.mem_cons, List.not_mem_nil, or_false] at hit
      rcases hit with rfl | rfl <;> simp [applyRemaining, dget])
  exact h.trans (by rfl)

/-! ## Row-structure lemmas -/

theorem optMapM_length {α β : Type} (f : α → Option β) :
    ∀ (l : List α) (l₂ : List β), optMapM f l = some l₂ → l₂.length = l.length := by
  intro l
  induction l with
  | nil =>
    intro l₂ h
    simp only [optMapM, Option.some.injEq] at h
    subst h
    rfl
  | cons x t ih =>
    intro l₂ h
    simp only [optMapM] at h
    cases hx : f x with
    | none => rw [hx] at h; simp at h
    | some y =>
      rw [hx] at h
      cases ht : optMapM f t with
      | none => rw [ht] at h; simp at h
      | some ys =>
        rw [ht] at h
        simp only [Option.map_some', Option.some.injEq] at h
        subst h
        simp [ih ys ht]

theorem optMapM_mem {α β : Type} (f : α → Option β) :
    ∀ (l : List α) (l₂ : List β), optMapM f l = some l₂ →
    ∀ y ∈ l₂, ∃ x ∈ l, f x = some y := by
  intro l
  induction l with
  | nil =>
    intro l₂ h
    simp only [optMapM, Option.some.injEq] at h
    subst h
    simp
  | cons x t ih =>
    intro l₂ h
    simp only [optMapM] at h
    cases hx : f x with
    | none => rw [hx] at h; simp at h
    | some y₀ =>
      rw [hx] at h
      cases ht : optMapM f t with
      | none => rw [ht] at h; simp at h
      | some ys =>
        rw [ht] at h
        simp only [Option.map_some', Option.some.injEq] at h
        subst h
        intro y hy
        rcases List.mem_cons.mp hy with rfl | hy₂
        · exact ⟨x, List.mem_cons_self _ _, hx⟩
        · obtain ⟨x₂, hx₂, hfx₂⟩ := ih ys ht y hy₂
          exact ⟨x₂, List.mem_cons_of_mem _ hx₂, hfx₂⟩

theorem metaProcessRecord_length (now : PyVal) (record : Dct) :
    ∀ (cols : List MCol) (row : List PyVal),
    metaProcessRecord now record cols = some row → row.length = cols.length := by
  intro cols
  induction cols with
  | nil =>
    intro row h
    simp only [metaProcessRecord, Option.some.injEq] at h
    subst h
    rfl
  | cons c t ih =>
    intro row h
    simp only [metaProcessRecord] at h
    cases hc : metaProcessCol now record c with
    | none => rw [hc] at h; simp at h
    | some v =>
      rw [hc] at h
      cases ht : metaProcessRecord now record t with
      | none => rw [ht] at h; simp at h
      | some l =>
        rw [ht] at h
        simp only [Option.map_some', Option.some.injEq] at h
        subst h
        simp [ih l ht]

theorem metaProcessRecord_get? (now : PyVal) (record : Dct) :
    ∀ (cols : List MCol) (row : List PyVal),
    metaProcessRecord now record cols = some row →
    ∀ (k : Nat) (c : MCol), cols.get? k = some c →
    ∃ v, metaProcessCol now record c = some v ∧ row.get? k = some v := by
  intro cols
  induction cols with
  | nil => intro row _ k c hk; simp at hk
  | cons c₀ t ih =>
    intro row h k c hk
    simp only [metaProcessRecord] at h
    cases hc : metaProcessCol now record c₀ with
    | none => rw [hc] at h; simp at h
    | some v₀ =>
      rw [hc] at h
      cases ht : metaProcessRecord now record t with
      | none => rw [ht] at h; simp at h
      | some l =>
        rw [ht] at h
        simp only [Option.map_some', Option.some.injEq] at h
        subst h
        cases k with
        | zero =>
          simp only [List.get?_cons_zero, Option.some.injEq] at hk
          subst hk
          exact ⟨v₀, hc, rfl⟩
        | succ k₂ =>
          simp only [List.get?_cons_succ] at hk ⊢
          exact ih l ht k₂ c hk

theorem dget_dset_ne (f k : String) (v : PyVal) (hne : k ≠ f) :
    ∀ d : Dct, dget (dset d f v) k = dget d k := by
  intro d
  induction d with
  | nil => rfl
  | cons kv t ih =>
    cases kv with
    | mk k₁ v₁ =>
      simp only [dset, List.map_cons]
      by_cases hk : k₁ = f
      · subst hk
        rw [if_pos rfl]
        simp only [dget]
        rw [if_neg (fun hc => hne hc.symm), if_neg (fun hc => hne hc.symm)]
        simpa only [dset] using ih
      · rw [if_neg hk]
        simp only [dget]
        by_cases hkk : k₁ = k
        · rw [if_pos hkk, if_pos hkk]
        · rw [if_neg hkk, if_neg hkk]
          simpa only [dset] using ih

theorem splitCharAux_ne_nil (c : Char) :
    ∀ (l acc : List Char), splitCharAux c l acc ≠ [] := by
  intro l
  induction l with
  | nil => intro acc; simp [splitCharAux]
  | cons x xs ih =>
    intro acc
    simp only [splitCharAux]
    by_cases hx : x = c
    · rw [if_pos hx]; simp
    · rw [if_neg hx]; exact ih _

theorem pySplit_ne_nil (c : Char) (s : String) : pySplit c s ≠ [] := by
  simp only [pySplit, ne_eq, List.map_eq_nil_iff]
  exact splitCharAux_ne_nil c s.data []

theorem mnav_first_congr (aAll : Bool) (aPos : Option Nat) (seg : String)
    (rest : List String) (d₁ d₂ : Dct) (h : dget d₁ seg = dget d₂ seg) :
    mnav aAll aPos (seg :: rest) 0 (VDict d₁) false 0 =
      mnav aAll aPos (seg :: rest) 0 (VDict d₂) false 0 := by
  rw [mnav_cons_eq, mnav_cons_eq]
  by_cases hdig : pyIsDigit seg = true
  · simp only [hdig, if_true, isList, Bool.and_false]
    cases hb : (if aAll && !false then
                  match aPos with
                  | none => none
                  | some p => some (decide (0 = p))
                else some false : Option Bool) with
    | none => rfl
    | some hit =>
      cases hit with
      | true => simp [h]
      | false => simp [h]
  · rw [Bool.not_eq_true] at hdig
    simp only [hdig, Bool.false_eq_true, if_false, h]

theorem metaDeepExtract_congr (d₁ d₂ : Dct) (path : String) (aAllCfg : Bool)
    (delim : String) (h : dget d₁ (pathHead path) = dget d₂ (pathHead path)) :
    metaDeepExtract d₁ path aAllCfg delim = metaDeepExtract d₂ path aAllCfg delim := by
  unfold metaDeepExtract
  unfold pathHead at h
  cases hfs : findStar (pySplit '.' path) with
  | none =>
    simp only [hfs] at h ⊢
    cases hsegs : pySplit '.' path with
    | nil => exact absurd hsegs (pySplit_ne_nil '.' path)
    | cons s₀ rest =>
      rw [hsegs] at h
      simp only [List.headD_cons] at h
      rw [mnav_first_congr aAllCfg none s₀ rest d₁ d₂ h]
  | some k =>
    simp only [hfs] at h ⊢
    cases hsegs : (pySplit '.' path).set k "0" with
    | nil =>
      exfalso
      have := pySplit_ne_nil '.' path
      have hlen : ((pySplit '.' path).set k "0").length = (pySplit '.' path).length :=
        List.length_set _ _ _
      rw [hsegs] at hlen
      cases hsp : pySplit '.' path with
      | nil => exact this hsp
      | cons a b => rw [hsp] at hlen; simp at hlen
    | cons s₀ rest =>
      rw [hsegs] at h
      simp only [List.headD_cons] at h
      rw [mnav_first_congr true (some k) s₀ rest d₁ d₂ h]

theorem metaProcessCol_congr (now : PyVal) (c : MCol) (d₁ d₂ : Dct)
    (h : ∀ k ∈ mcolTouched c, dget d₁ k = dget d₂ k) :
    metaProcessCol now d₁ c = metaProcessCol now d₂ c := by
  by_cases hauto : c.auto_generate = true
  · simp [metaProcessCol, hauto]
  · rw [Bool.not_eq_true] at hauto
    by_cases hdeep : (c.deep_nested && optTruthy c.path_to_value) = true
    · have hh : dget d₁ (deepEffectiveHead c) = dget d₂ (deepEffectiveHead c) :=
        h _ (by simp [mcolTouched, hauto, hdeep])
      simp only [metaProcessCol, hauto, Bool.false_eq_true, if_false, hdeep, if_true]
      rw [metaDeepExtract_congr d₁ d₂ (c.path_to_value.getD "") c.array_all
        c.join_delimiter hh]
    · rw [Bool.not_eq_true] at hdeep
      by_cases hnest : (c.is_nested && optTruthy c.action_filter) = true
      · have h1 := h "action_values" (by simp [mcolTouched, hauto, hdeep, hnest])
        have h2 := h "actions" (by simp [mcolTouched, hauto, hdeep, hnest])
        simp only [metaProcessCol, hauto, Bool.false_eq_true, if_false, hdeep, hnest,
          if_true, dgetD, h1, h2]
      · rw [Bool.not_eq_true] at hnest
        by_cases hn : c.is_nested = true
        · have haf : optTruthy c.action_filter = false := by simpa [hn] using hnest
          cases hsf : c.source_field with
          | none =>
            simp [metaProcessCol, hauto, hdeep, hnest, haf, hn, hsf]
          | some sf =>
            by_cases hdot : sf.data.contains '.' = true
            · cases hsp : pySplit '.' sf with
              | nil => exact absurd hsp (pySplit_ne_nil '.' sf)
              | cons p rest =>
                cases rest with
                | nil =>
                  simp [metaProcessCol, hauto, hdeep, hnest, haf, hn, hsf, hdot, hsp]
                | cons ch rest₂ =>
                  cases rest₂ with
                  | nil =>
                    have hdot2 : '.' ∈ sf.data := by simpa using hdot
                    have hp := h p (by
                      simp [mcolTouched, hauto, hdeep, hnest, haf, hn, hsf, hdot,
                        hdot2, hsp])
                    simp [metaProcessCol, hauto, hdeep, hnest, haf, hn, hsf, hdot,
                      hsp, dgetD, hp]
                  | cons z rest₃ =>
                    simp [metaProcessCol, hauto, hdeep, hnest, haf, hn, hsf, hdot, hsp]
            · rw [Bool.not_eq_true] at hdot
              have hdot2 : '.' ∉ sf.data := by simpa using hdot
              simp [metaProcessCol, hauto, hdeep, hnest, haf, hn, hsf, hdot, hdot2]
        · rw [Bool.not_eq_true] at hn
          cases hsf : c.source_field with
          | none =>
            simp [metaProcessCol, hauto, hdeep, hnest, hn, hsf]
          | some sf =>
            have hk := h sf (by simp [mcolTouched, hauto, hdeep, hnest, hn, hsf])
            simp [metaProcessCol, hauto, hdeep, hnest, hn, hsf, dgetD, hk]

/-! ## Claims C1, C2, C9 -/

/-- Claim C1: when a record has exactly one nested array (the array the
exploding entry names) with N elements, the nested-response processing
produces exactly N flat rows — one per element — and every column that does
not read the exploded field (in particular every non-exploding column)
resolves to the same value in all N rows: the per-row records differ only at
the exploded field, and such a column's resolution reads only the keys in
`mcolTouched`. -/
theorem one_exploding_array (now : PyVal) (cols : List MCol) (flds : Dct)
    (f : String) (items : List PyVal) (rows : List (List PyVal))
    (hna : nestedArraysOf flds = [(f, items)])
    (hrun : metaProcessNestedResponse now cols [("data", VList [VDict flds])] =
      some rows) :
    rows.length = items.length ∧
    ∀ (k : Nat) (c : MCol), cols.get? k = some c → f ∉ mcolTouched c →
      ∀ r₁ ∈ rows, ∀ r₂ ∈ rows, r₁.get? k = r₂.get? k := by
  simp only [metaProcessNestedResponse, dget, if_pos rfl, ite_true, optMapM] at hrun
  cases hrec : metaRowsForRecord now cols (VDict flds) with
  | none => rw [hrec] at hrun; simp at hrun
  | some rs =>
    rw [hrec] at hrun
    simp only [Option.map_some', Option.some.injEq] at hrun
    have hrows : rows = rs := by
      rw [← hrun]
      simp
    subst hrows
    simp only [metaRowsForRecord, hna, optMapM] at hrec
    cases hitems : optMapM (fun it =>
        metaProcessRecord now (dset flds f (VDict [("data", VList [it])])) cols)
        items with
    | none =>
      rw [hitems] at hrec
      simp at hrec
    | some l =>
      rw [hitems] at hrec
      simp only [Option.map_some', Option.some.injEq] at hrec
      have hrs : rows = l := by
        rw [← hrec]
        simp
      subst hrs
      constructor
      · exact optMapM_length _ items rows hitems
      · intro k c hk havoid r₁ hr₁ r₂ hr₂
        obtain ⟨it₁, _, hg₁⟩ := optMapM_mem _ items rows hitems r₁ hr₁
        obtain ⟨it₂, _, hg₂⟩ := optMapM_mem _ items rows hitems r₂ hr₂
        obtain ⟨v₁, hv₁, hr₁k⟩ := metaProcessRecord_get? now _ cols r₁ hg₁ k c hk
        obtain ⟨v₂, hv₂, hr₂k⟩ := metaProcessRecord_get? now _ cols r₂ hg₂ k c hk
        have hcong : metaProcessCol now
            (dset flds f (VDict [("data", VList [it₁])])) c =
            metaProcessCol now (dset flds f (VDict [("data", VList [it₂])])) c := by
          have h₁ := metaProcessCol_congr now c
            (dset flds f (VDict [("data", VList [it₁])])) flds
            (fun key hkey => dget_dset_ne f key _ (fun hc => havoid (hc ▸ hkey)) flds)
          have h₂ := metaProcessCol_congr now c
            (dset flds f (VDict [("data", VList [it₂])])) flds
            (fun key hkey => dget_dset_ne f key _ (fun hc => havoid (hc ▸ hkey)) flds)
          rw [h₁, h₂]
        exact hr₁k.trans ((hv₁.symm.trans (hcong.trans hv₂)).trans hr₂k.symm)

/-- Claim C2 (amended): a record with no nested-array field produces exactly
one flat row; the original claim quantified over records unrestrictedly,
which the counterexample below refutes, because row multiplication is
triggered by the record's shape, not by the column definitions. -/
theorem no_nested_arrays_single_row (now : PyVal) (cols : List MCol)
    (flds : Dct) (rows : List (List PyVal))
    (hna : nestedArraysOf flds = [])
    (hrun : metaProcessNestedResponse now cols [("data", VList [VDict flds])] =
      some rows) :
    rows.length = 1 := by
  simp only [metaProcessNestedResponse, dget, if_pos rfl, ite_true, optMapM] at hrun
  cases hrec : metaRowsForRecord now cols (VDict flds) with
  | none => rw [hrec] at hrun; simp at hrun
  | some rs =>
    rw [hrec] at hrun
    simp only [Option.map_some', Option.some.injEq] at hrun
    have hrows : rows = rs := by
      rw [← hrun]
      simp
    subst hrows
    simp only [metaRowsForRecord, hna] at hrec
    cases hpr : metaProcessRecord now flds cols with
    | none => rw [hpr] at hrec; simp at hrec
    | some row =>
      rw [hpr] at hrec
      simp only [Option.map_some', Option.some.injEq] at hrec
      rw [← hrec]
      rfl

/-- Claim C2 counterexample: a column list with no deep-nested entries and a
record holding one nested-array field with two elements produce two flat
rows, not one. -/
theorem nested_record_two_rows :
    metaProcessNestedResponse (VStr "ts") [mkDirectCol "id" "STRING" "id"]
      [("data", VList [VDict [("id", VInt 1),
        ("acts", VDict [("data", VList [VInt 1, VInt 2])])]])] =
      some [[VInt 1], [VInt 1]] ∧
    ([mkDirectCol "id" "STRING" "id"].all (fun c => !c.deep_nested)) = true ∧
    ([[VInt 1], [VInt 1]] : List (List PyVal)).length ≠ 1 := by
  exact ⟨rfl, rfl, by decide⟩

/-- Witness for `one_exploding_array` at a concrete record. -/
theorem one_exploding_array_witness :
    ([[VInt 7], [VInt 7]] : List (List PyVal)).length =
      ([VInt 1, VInt 2] : List PyVal).length := by
  exact (one_exploding_array (VStr "ts") [mkDirectCol "id" "STRING" "id"]
    [("id", VInt 7), ("acts", VDict [("data", VList [VInt 1, VInt 2])])]
    "acts" [VInt 1, VInt 2] [[VInt 7], [VInt 7]] rfl rfl).1

/-- Witness for `no_nested_arrays_single_row` at a concrete record. -/
theorem no_nested_arrays_single_row_witness :
    ([[VInt 7]] : List (List PyVal)).length = 1 := by
  exact no_nested_arrays_single_row (VStr "ts") [mkDirectCol "id" "STRING" "id"]
    [("id", VInt 7)] [[VInt 7]] rfl rfl

theorem xeroExtractRecordValues_length (now : PyVal) (record : Dct) :
    ∀ cols : List XCol,
    (xeroExtractRecordValues now record cols).length = cols.length := by
  intro cols
  induction cols with
  | nil => rfl
  | cons c t ih => simp [xeroExtractRecordValues, ih]

theorem xeroExtractRecordValues_get? (now : PyVal) (record : Dct) :
    ∀ (cols : List XCol) (k : Nat) (c : XCol), cols.get? k = some c →
    (xeroExtractRecordValues now record cols).get? k =
      some (xeroExtractOne now record c) := by
  intro cols
  induction cols with
  | nil => intro k c hk; simp at hk
  | cons c₀ t ih =>
    intro k c hk
    cases k with
    | zero =>
      simp only [List.get?_cons_zero, Option.some.injEq] at hk
      subst hk
      rfl
    | succ k₂ =>
      simp only [List.get?_cons_succ] at hk
      simpa only [xeroExtractRecordValues, List.get?_cons_succ] using ih k₂ c hk

/-- Claim C9: both extractors produce, per record, rows with exactly one
value per column definition, in definition order: the row has the same
length as the column list, and the entry at position `k` is exactly the
resolution of column `k`. -/
theorem row_arity_order :
    (∀ (now : PyVal) (record : Dct) (cols : List MCol) (row : List PyVal),
      metaProcessRecord now record cols = some row →
      row.length = cols.length ∧
      ∀ (k : Nat) (c : MCol), cols.get? k = some c →
        ∃ v, metaProcessCol now record c = some v ∧ row.get? k = some v) ∧
    (∀ (now : PyVal) (record : Dct) (cols : List XCol),
      (xeroExtractRecordValues now record cols).length = cols.length ∧
      ∀ (k : Nat) (c : XCol), cols.get? k = some c →
        (xeroExtractRecordValues now record cols).get? k =
          some (xeroExtractOne now record c)) := by
  constructor
  · intro now record cols row h
    exact ⟨metaProcessRecord_length now record cols row h,
      metaProcessRecord_get? now record cols row h⟩
  · intro now record cols
    exact ⟨xeroExtractRecordValues_length now record cols,
      xeroExtractRecordValues_get? now record cols⟩

/-- Witness for `row_arity_order` at concrete inputs. -/
theorem row_arity_order_witness :
    ([VInt 3] : List PyVal).length = [mkDirectCol "x" "STRING" "x"].length := by
  exact (row_arity_order.1 (VStr "ts") [("x", VInt 3)]
    [mkDirectCol "x" "STRING" "x"] [VInt 3] rfl).1

/-! ## Claim C8 -/

theorem pySorted_eq_of_perm (l₁ l₂ : List String) (h : l₁.Perm l₂) :
    pySorted l₁ = pySorted l₂ := by
  unfold pySorted
  exact List.eq_of_perm_of_sorted
    ((List.perm_insertionSort _ l₁).trans (h.trans (List.perm_insertionSort _ l₂).symm))
    (List.sorted_insertionSort _ l₁) (List.sorted_insertionSort _ l₂)

theorem assembleFold_perm (n₁ n₂ : List (String × List String))
    (hn : List.Forall₂ (fun a b => a.1 = b.1 ∧ a.2.Perm b.2) n₁ n₂) :
    ∀ (fl₁ fl₂ : List String), fl₁.Perm fl₂ →
    (n₁.foldl (fun fl p =>
      if p.2.isEmpty then fl
      else
        (if p.1 ∈ fl then fl.erase p.1 else fl) ++
          [p.1 ++ "\x7b" ++ String.intercalate "," (pySorted p.2) ++ "\x7d"]) fl₁).Perm
    (n₂.foldl (fun fl p =>
      if p.2.isEmpty then fl
      else
        (if p.1 ∈ fl then fl.erase p.1 else fl) ++
          [p.1 ++ "\x7b" ++ String.intercalate "," (pySorted p.2) ++ "\x7d"]) fl₂) := by
  induction hn with
  | nil => intro fl₁ fl₂ h; simpa using h
  | @cons a b t₁ t₂ hab hrest ih =>
    intro fl₁ fl₂ h
    obtain ⟨hkey, hperm⟩ := hab
    simp only [List.foldl_cons]
    apply ih
    by_cases he : a.2.isEmpty = true
    · have heb : b.2.isEmpty = true := by
        have ha2 : a.2 = [] := List.isEmpty_iff.mp he
        have hb2 : b.2 = [] := (ha2 ▸ hperm).symm.eq_nil
        simp [hb2]
      rw [if_pos he, if_pos heb]
      exact h
    · have heb : ¬(b.2.isEmpty = true) := by
        intro hb
        apply he
        have hb2 : b.2 = [] := List.isEmpty_iff.mp hb
        have ha2 : a.2 = [] := (hb2 ▸ hperm).eq_nil
        simp [ha2]
      rw [if_neg he, if_neg heb, hkey, pySorted_eq_of_perm _ _ hperm]
      by_cases hm : b.1 ∈ fl₁
      · rw [if_pos hm, if_pos (h.mem_iff.mp hm)]
        exact (h.erase _).append_right _
      · rw [if_neg hm, if_neg (fun hc => hm (h.mem_iff.mpr hc))]
        exact h.append_right _

/-- Claim C8: the Meta fields builder's output string is invariant under the
enumeration order of the `api_fields` set and of each nested child set (the
model threads those sets as lists in some enumeration order): any two
enumeration orders give byte-identical output, because the builder sorts
before joining.  With the set orders fixed, the builder is a pure function
of the column definitions, so repeated calls with equal inputs are
byte-identical by construction. -/
theorem fields_builder_deterministic (api₁ api₂ : List String)
    (n₁ n₂ : List (String × List String))
    (hapi : api₁.Perm api₂)
    (hn : List.Forall₂ (fun a b => a.1 = b.1 ∧ a.2.Perm b.2) n₁ n₂) :
    metaAssembleFields api₁ n₁ = metaAssembleFields api₂ n₂ := by
  unfold metaAssembleFields
  have hfl := hapi.filter (fun f => !(f == ""))
  have hfold := assembleFold_perm n₁ n₂ hn _ _ hfl
  exact congrArg (String.intercalate ",") (pySorted_eq_of_perm _ _ hfold)

/-- Witness for `fields_builder_deterministic` at two enumeration orders of
the same sets. -/
theorem fields_builder_deterministic_witness :
    metaAssembleFields ["b", "a"] [("act", ["y", "x"])] =
      metaAssembleFields ["a", "b"] [("act", ["x", "y"])] := by
  exact fields_builder_deterministic ["b", "a"] ["a", "b"]
    [("act", ["y", "x"])] [("act", ["x", "y"])] (by decide)
    (List.Forall₂.cons ⟨rfl, by decide⟩ List.Forall₂.nil)

/-! ## Claim C10 -/

theorem creditRow_single (now : PyVal) (mults : List (String × Int)) (τ lat : String)
    (sign : Int) (lis : List PyVal) (nm cd : String) (q a t : Rat) (ac : String) :
    xeroCreditRow now mults xeroCreditCols
      [("Type", VStr τ), ("LineAmountTypes", VStr lat), ("LineItems", VList lis)]
      [("Type", VStr τ), ("CreditNoteID", VStr ""), ("CreditNoteNumber", VStr ""),
       ("Reference", VStr ""), ("Total", VInt 0), ("CurrencyRate", VInt 1),
       ("Contact", VDict [("Name", VStr "No Name Provided")]), ("DateString", VStr ""),
       ("Status", VStr ""), ("CurrencyCode", VStr ""), ("SubTotal", VInt 0),
       ("Attachments", VList [VDict [("Url", VStr "")]])]
      sign (mkXeroLineItem nm cd q a t ac) =
      some [VStr τ, VStr "", VStr "", VStr "", VInt 0, VNone, VInt 1,
            VStr "No Name Provided", VStr "", VStr "",
            VFloat ((sign : Rat) * (if lat = "Inclusive" then a - t else a)),
            VStr nm, VStr cd,
            VFloat ((sign : Rat) * xeroAdjustedQty mults nm q),
            VInt 0, VStr "", VStr ac, now] := by
  cases hl : mults.lookup nm with
  | none =>
    by_cases hlat : lat = "Inclusive"
    · subst hlat
      simp [xeroCreditRow, mkXeroLineItem, xeroItemName, xeroItemCode, adjustQuantity,
        xeroAdjustedQty, pyMul, pySub, dget, dgetD, dsetNew, dset, xeroCreditCols,
        xeroExtractRecordValues, xeroExtractOne, xeroExtractNested, xeroNestedDots,
        pySplit, splitCharAux, pyTruthy, isStrEqB, optIsStr, hl]
    · simp [xeroCreditRow, mkXeroLineItem, xeroItemName, xeroItemCode, adjustQuantity,
        xeroAdjustedQty, pyMul, pySub, dget, dgetD, dsetNew, dset, xeroCreditCols,
        xeroExtractRecordValues, xeroExtractOne, xeroExtractNested, xeroNestedDots,
        pySplit, splitCharAux, pyTruthy, isStrEqB, optIsStr, hl, hlat]
  | some m =>
    by_cases hlat : lat = "Inclusive"
    · subst hlat
      simp [xeroCreditRow, mkXeroLineItem, xeroItemName, xeroItemCode, adjustQuantity,
        xeroAdjustedQty, pyMul, pySub, dget, dgetD, dsetNew, dset, xeroCreditCols,
        xeroExtractRecordValues, xeroExtractOne, xeroExtractNested, xeroNestedDots,
        pySplit, splitCharAux, pyTruthy, isStrEqB, optIsStr, hl]
    · simp [xeroCreditRow, mkXeroLineItem, xeroItemName, xeroItemCode, adjustQuantity,
        xeroAdjustedQty, pyMul, pySub, dget, dgetD, dsetNew, dset, xeroCreditCols,
        xeroExtractRecordValues, xeroExtractOne, xeroExtractNested, xeroNestedDots,
        pySplit, splitCharAux, pyTruthy, isStrEqB, optIsStr, hl, hlat]

theorem creditRows_map (now : PyVal) (mults : List (String × Int)) (τ lat : String)
    (sign : Int) (lis : List PyVal) :
    ∀ L : List (String × String × Rat × Rat × Rat × String),
    optMapM (xeroCreditRow now mults xeroCreditCols
      [("Type", VStr τ), ("LineAmountTypes", VStr lat), ("LineItems", VList lis)]
      [("Type", VStr τ), ("CreditNoteID", VStr ""), ("CreditNoteNumber", VStr ""),
       ("Reference", VStr ""), ("Total", VInt 0), ("CurrencyRate", VInt 1),
       ("Contact", VDict [("Name", VStr "No Name Provided")]), ("DateString", VStr ""),
       ("Status", VStr ""), ("CurrencyCode", VStr ""), ("SubTotal", VInt 0),
       ("Attachments", VList [VDict [("Url", VStr "")]])]
      sign)
      (L.map (fun p =>
        mkXeroLineItem p.1 p.2.1 p.2.2.1 p.2.2.2.1 p.2.2.2.2.1 p.2.2.2.2.2)) =
    some (L.map (fun p =>
      [VStr τ, VStr "", VStr "", VStr "", VInt 0, VNone, VInt 1,
       VStr "No Name Provided", VStr "", VStr "",
       VFloat ((sign : Rat) *
         (if lat = "Inclusive" then p.2.2.2.1 - p.2.2.2.2.1 else p.2.2.2.1)),
       VStr p.1, VStr p.2.1,
       VFloat ((sign : Rat) * xeroAdjustedQty mults p.1 p.2.2.1),
       VInt 0, VStr "", VStr p.2.2.2.2.2, now])) := by
  intro L
  induction L with
  | nil => rfl
  | cons p t ih =>
    simp only [List.map_cons, optMapM, creditRow_single, ih, Option.map_some']

/-- Claim C10: in credit-note processing, the per-line-item rows carry the
multiplier-adjusted quantity and the (tax-adjusted) unit amount negated
exactly when the credit note's `Type` is not `ACCPAYCREDIT` (for
`ACCPAYCREDIT` the original sign is kept), and no other row entry depends on
the sign: the sign condition appears only in the `unit_amount` and
`quantity` positions of the produced rows. -/
theorem credit_note_sign (now : PyVal) (mults : List (String × Int)) (τ lat : String)
    (L : List (String × String × Rat × Rat × Rat × String)) :
    xeroProcessCreditNotes now mults xeroCreditCols
      [mkXeroCreditNote τ lat
        (L.map (fun p =>
          mkXeroLineItem p.1 p.2.1 p.2.2.1 p.2.2.2.1 p.2.2.2.2.1 p.2.2.2.2.2))] =
      some (L.map (fun p =>
        [VStr τ, VStr "", VStr "", VStr "", VInt 0, VNone, VInt 1,
         VStr "No Name Provided", VStr "", VStr "",
         VFloat (if τ = "ACCPAYCREDIT"
           then (if lat = "Inclusive" then p.2.2.2.1 - p.2.2.2.2.1 else p.2.2.2.1)
           else -(if lat = "Inclusive" then p.2.2.2.1 - p.2.2.2.2.1 else p.2.2.2.1)),
         VStr p.1, VStr p.2.1,
         VFloat (if τ = "ACCPAYCREDIT" then xeroAdjustedQty mults p.1 p.2.2.1
           else -(xeroAdjustedQty mults p.1 p.2.2.1)),
         VInt 0, VStr "", VStr p.2.2.2.2.2, now])) := by
  have hbase : xeroCreditBase
      [("Type", VStr τ), ("LineAmountTypes", VStr lat),
       ("LineItems", VList (L.map (fun p =>
         mkXeroLineItem p.1 p.2.1 p.2.2.1 p.2.2.2.1 p.2.2.2.2.1 p.2.2.2.2.2)))] =
      some [("Type", VStr τ), ("CreditNoteID", VStr ""), ("CreditNoteNumber", VStr ""),
       ("Reference", VStr ""), ("Total", VInt 0), ("CurrencyRate", VInt 1),
       ("Contact", VDict [("Name", VStr "No Name Provided")]), ("DateString", VStr ""),
       ("Status", VStr ""), ("CurrencyCode", VStr ""), ("SubTotal", VInt 0),
       ("Attachments", VList [VDict [("Url", VStr "")]])] := by
    simp [xeroCreditBase, xeroContactName, xeroAttachmentsUrl, dget, dgetD, pyTruthy]
  have hli : dgetD
      [("Type", VStr τ), ("LineAmountTypes", VStr lat),
       ("LineItems", VList (L.map (fun p =>
         mkXeroLineItem p.1 p.2.1 p.2.2.1 p.2.2.2.1 p.2.2.2.2.1 p.2.2.2.2.2)))]
      "LineItems" (VList []) =
      VList (L.map (fun p =>
        mkXeroLineItem p.1 p.2.1 p.2.2.1 p.2.2.2.1 p.2.2.2.2.1 p.2.2.2.2.2)) := rfl
  have hty : optIsStr (dget
      [("Type", VStr τ), ("LineAmountTypes", VStr lat),
       ("LineItems", VList (L.map (fun p =>
         mkXeroLineItem p.1 p.2.1 p.2.2.1 p.2.2.2.1 p.2.2.2.2.1 p.2.2.2.2.2)))]
      "Type") "ACCPAYCREDIT" = decide (τ = "ACCPAYCREDIT") := rfl
  unfold xeroProcessCreditNotes mkXeroCreditNote
  simp only [optMapM, hbase, Option.some_bind, hli, hty, decide_eq_true_eq,
    creditRows_map, Option.map_some', List.flatten]
  rw [List.append_nil]
  by_cases hτ : τ = "ACCPAYCREDIT"
  · simp [hτ]
  · simp [hτ]
    intro a a₁ a₂ a₃ a₄ b _
    by_cases hl : lat = "Inclusive" <;> simp [hl] <;> ring
